import Mathlib

/-!
Shallow embedding of the social audio-sharing backend (Django REST app:
backend/accounts and backend/music) and proofs about its specified behavior.

Modelling conventions:
* Database tables are lists of records; primary keys are natural numbers.
* Timestamps are natural numbers (ticks); the caller of an operation passes
  the current time where the source reads timezone.now or auto_now.
* File references (FileField values) are strings; the external blob store is
  modelled as the list of stored payload references (DB.storage).
* A Like row is identified by its (user id, track id) key, the unique_together
  key of music.models.Like; its surrogate id and created_at column are not
  observed by any modelled operation and are omitted.
* Fields of Track / Project not read by any modelled operation
  (audio_file, cover_art, bpm, duration, arrangement_json) are omitted or kept
  as opaque strings.
* Each Django view method becomes a function from the database (plus request
  data) to the new database and a response; authentication has already
  happened (permissions.IsAuthenticated), so the requesting user id is a
  parameter.
-/

/-- Account record: accounts.models.User (profile_picture and password omitted). -/
structure UserRec where
  id : Nat
  username : String
  is_creator : Bool
  is_listener : Bool
  creator_since : Option Nat
  deriving Repr, DecidableEq

/-- Track row: music.models.Track (audio_file, cover_art, bpm, duration omitted). -/
structure Track where
  id : Nat
  userId : Nat
  title : String
  genre : String
  listens_count : Nat
  created_at : Nat
  deriving Repr, DecidableEq

/-- Project row: music.models.Project; arrangement_json is opaque to the server. -/
structure Project where
  id : Nat
  userId : Nat
  title : String
  bpm : Nat
  arrangement : String
  created_at : Nat
  last_updated : Nat
  deriving Repr, DecidableEq

/-- ProjectFile row: music.models.ProjectFile; file is the stored payload reference. -/
structure ProjectFile where
  id : Nat
  projectId : Nat
  name : String
  file : String
  created_at : Nat
  deriving Repr, DecidableEq

/-- The whole persistent state: the relational tables plus the blob store. -/
structure DB where
  users : List UserRec
  tracks : List Track
  likes : List (Nat × Nat)
  projects : List Project
  projectFiles : List ProjectFile
  storage : List String
  deriving Repr, DecidableEq

/-- Error taxonomy of the HTTP layer as used by the modelled views. -/
inductive ApiError where
  | notFound
  | forbidden
  deriving Repr, DecidableEq

/-- Response of a view: a payload or an error status. -/
inductive Resp (α : Type) where
  | ok (val : α)
  | err (e : ApiError)
  deriving Repr, DecidableEq

/-- Number of Like rows for the given track: track.likes.count(). -/
def likesCount (db : DB) (tid : Nat) : Nat :=
  (db.likes.filter (fun p => p.2 == tid)).length

/-- LikeToggleView.post: fetch the track (404 if absent), get_or_create the
Like(user, track); if it already existed delete it and answer
liked=false, else keep the new row and answer liked=true; either way the
reported likes_count is computed after the mutation. -/
def likeToggle (db : DB) (uid tid : Nat) : DB × Resp (Bool × Nat) :=
  match db.tracks.find? (fun t => t.id == tid) with
  | none => (db, .err .notFound)
  | some _ =>
    if (uid, tid) ∈ db.likes then
      let db' : DB := { db with likes := db.likes.erase (uid, tid) }
      (db', .ok (false, likesCount db' tid))
    else
      let db' : DB := { db with likes := db.likes ++ [(uid, tid)] }
      (db', .ok (true, likesCount db' tid))

/-- TrackListenView.post: fetch the track (404 if absent), increment its
listens_count and save; the requesting user uid is never consulted. -/
def recordListen (db : DB) (uid tid : Nat) : DB × Resp Nat :=
  match db.tracks.find? (fun t => t.id == tid) with
  | none => (db, .err .notFound)
  | some t =>
    ({ db with tracks := db.tracks.map (fun u =>
        if u.id == tid then { u with listens_count := u.listens_count + 1 } else u) },
     .ok (t.listens_count + 1))

/-- The uid is unused by recordListen; this keeps the parameter list honest. -/
theorem recordListen_ignores_uid (db : DB) (uid uid2 tid : Nat) :
    recordListen db uid tid = recordListen db uid2 tid := rfl

/-- listens_count of the track with the given id, if any. -/
def listensOf (db : DB) (tid : Nat) : Option Nat :=
  (db.tracks.find? (fun t => t.id == tid)).map (fun t => t.listens_count)

/-- Sequence of listen calls by the given callers, in order, on one track. -/
def listenSeq (db : DB) (tid : Nat) : List Nat → DB
  | [] => db
  | u :: us => listenSeq ((recordListen db u tid).1) tid us

/-- Leading-match test on character lists: needle is a left segment of hay. -/
def startsWithL : List Char → List Char → Bool
  | _, [] => true
  | [], _ :: _ => false
  | c :: cs, d :: ds => c == d && startsWithL cs ds

/-- Substring test on character lists: needle occurs contiguously in hay. -/
def containsSubL (needle : List Char) : List Char → Bool
  | [] => startsWithL [] needle
  | c :: cs => startsWithL (c :: cs) needle || containsSubL needle cs

/-- Django icontains: case-insensitive containment of q in hay. -/
def icontains (hay q : String) : Bool :=
  containsSubL q.toLower.data hay.toLower.data

/-- Username of the track owner, joined through the users table
(user__username in the Django query; the foreign key always resolves in a
live database, so the default for a dangling key is never reached). -/
def ownerUsername (db : DB) (t : Track) : String :=
  match db.users.find? (fun u => u.id == t.userId) with
  | some u => u.username
  | none => ""

/-- Filter predicate of SearchView.get_queryset: title icontains q, or genre
icontains q, or owner username icontains q. -/
def trackMatches (db : DB) (q : String) (t : Track) : Bool :=
  icontains t.title q || icontains t.genre q || icontains (ownerUsername db t) q

/-- Newest-first order used by order_by on created_at descending. -/
def newerEq (a b : Track) : Prop := b.created_at ≤ a.created_at

instance : DecidableRel newerEq := fun a b => Nat.decLe b.created_at a.created_at

instance : IsTotal Track newerEq := ⟨fun a b => Nat.le_total b.created_at a.created_at⟩

instance : IsTrans Track newerEq := ⟨fun _ _ _ h1 h2 => Nat.le_trans h2 h1⟩

/-- SearchView.get_queryset: a falsy (empty) q yields Track.objects.none();
otherwise the tracks matching the three-way icontains disjunction, ordered
newest-first. -/
def search (db : DB) (q : String) : List Track :=
  if q = "" then []
  else List.insertionSort newerEq (db.tracks.filter (trackMatches db q))

/-- FeedView.get_queryset: all tracks, newest-first. -/
def feed (db : DB) : List Track :=
  List.insertionSort newerEq db.tracks

/-- Ownership-scoped queryset of the track detail view:
Track.objects.filter(user=request.user). -/
def ownTracks (db : DB) (uid : Nat) : List Track :=
  db.tracks.filter (fun t => t.userId == uid)

/-- TrackDetailView GET: get_object over the owner-filtered queryset; a track
that is absent or owned by someone else raises Http404. -/
def trackDetailGet (db : DB) (uid pk : Nat) : Resp Track :=
  match (ownTracks db uid).find? (fun t => t.id == pk) with
  | none => .err .notFound
  | some t => .ok t

/-- Writable fields of a track PUT/PATCH (the serializer marks user,
created_at and listens_count read-only; of the remaining fields the model
keeps title and genre). -/
structure TrackPatch where
  titleField : Option String
  genreField : Option String
  deriving Repr, DecidableEq

/-- TrackDetailView PUT/PATCH: resolve the object in the owner-filtered
queryset (404 otherwise), then write the submitted fields. -/
def trackDetailUpdate (db : DB) (uid pk : Nat) (d : TrackPatch) : DB × Resp Unit :=
  match (ownTracks db uid).find? (fun t => t.id == pk) with
  | none => (db, .err .notFound)
  | some _ =>
    ({ db with tracks := db.tracks.map (fun u =>
        if u.id == pk then
          { u with title := d.titleField.getD u.title,
                   genre := d.genreField.getD u.genre }
        else u) },
     .ok ())

/-- TrackDetailView DELETE: resolve the object in the owner-filtered queryset
(404 otherwise), delete the row; Like rows of the track go with it
(on_delete CASCADE on Like.track). -/
def trackDetailDelete (db : DB) (uid pk : Nat) : DB × Resp Unit :=
  match (ownTracks db uid).find? (fun t => t.id == pk) with
  | none => (db, .err .notFound)
  | some _ =>
    ({ db with tracks := db.tracks.filter (fun t => t.id != pk),
               likes := db.likes.filter (fun p => p.2 != pk) },
     .ok ())

/-- TrackListCreateView.perform_create: a new track owned by the requester,
listens_count starting at 0, created_at stamped now. -/
def trackCreate (db : DB) (uid : Nat) (title genre : String) (newId now : Nat) : DB :=
  { db with tracks := db.tracks ++
      [{ id := newId, userId := uid, title := title, genre := genre,
         listens_count := 0, created_at := now }] }

/-- Writable payload of UserSerializer.update; absent keys are None in
validated_data.get (creator_since is read-only and never present). -/
structure ProfilePatch where
  isCreatorField : Option Bool
  isListenerField : Option Bool
  deriving Repr, DecidableEq

/-- UserSerializer.update: when validated_data carries a truthy is_creator and
the instance is not yet a creator, stamp creator_since with the current time;
then the base ModelSerializer.update writes the submitted fields. -/
def updateProfile (u : UserRec) (d : ProfilePatch) (now : Nat) : UserRec :=
  let u1 : UserRec :=
    if d.isCreatorField.getD false && !u.is_creator then
      { u with creator_since := some now }
    else u
  { u1 with is_creator := d.isCreatorField.getD u1.is_creator,
            is_listener := d.isListenerField.getD u1.is_listener }

/-- Ownership-scoped queryset of the project detail view:
Project.objects.filter(user=request.user). -/
def ownProjects (db : DB) (uid : Nat) : List Project :=
  db.projects.filter (fun p => p.userId == uid)

/-- ProjectDetailView GET. -/
def projectDetailGet (db : DB) (uid pk : Nat) : Resp Project :=
  match (ownProjects db uid).find? (fun p => p.id == pk) with
  | none => .err .notFound
  | some p => .ok p

/-- Writable fields of a project PUT. -/
structure ProjectPatch where
  titleField : Option String
  bpmField : Option Nat
  arrangementField : Option String
  deriving Repr, DecidableEq

/-- ProjectDetailView PUT: resolve in the owner-filtered queryset, write the
submitted fields, refresh last_updated (auto_now). -/
def projectDetailUpdate (db : DB) (uid pk : Nat) (d : ProjectPatch) (now : Nat) :
    DB × Resp Unit :=
  match (ownProjects db uid).find? (fun p => p.id == pk) with
  | none => (db, .err .notFound)
  | some _ =>
    ({ db with projects := db.projects.map (fun p =>
        if p.id == pk then
          { p with title := d.titleField.getD p.title,
                   bpm := d.bpmField.getD p.bpm,
                   arrangement := d.arrangementField.getD p.arrangement,
                   last_updated := now }
        else p) },
     .ok ())

/-- ProjectDetailView DELETE: resolve in the owner-filtered queryset, delete
the row; ProjectFile rows of the project go with it (on_delete CASCADE on
ProjectFile.project). The blob store is untouched: a Django FileField does
not remove its stored payload when the row is deleted, and the source defines
no cleanup signal or delete override. -/
def projectDetailDelete (db : DB) (uid pk : Nat) : DB × Resp Unit :=
  match (ownProjects db uid).find? (fun p => p.id == pk) with
  | none => (db, .err .notFound)
  | some _ =>
    ({ db with projects := db.projects.filter (fun p => p.id != pk),
               projectFiles := db.projectFiles.filter (fun f => f.projectId != pk) },
     .ok ())

/-- ProjectListCreateView.perform_create with the model defaults. -/
def projectCreate (db : DB) (uid : Nat) (title : String) (bpm : Nat)
    (arrangement : String) (newId now : Nat) : DB :=
  { db with projects := db.projects ++
      [{ id := newId, userId := uid, title := title, bpm := bpm,
         arrangement := arrangement, created_at := now, last_updated := now }] }

/-- Modelled from the spec: ProjectFileListView is imported by music/urls.py
(route projects/<project_id>/files/) but its definition is absent from the
source files. Per the spec, ListFiles returns the ProjectFiles under the
Project only after verifying that the Project belongs to the requesting user;
a foreign project is refused (Forbidden), an absent one is NotFound. -/
def listFiles (db : DB) (uid pid : Nat) : Resp (List ProjectFile) :=
  match db.projects.find? (fun p => p.id == pid) with
  | none => .err .notFound
  | some p =>
    if p.userId == uid then
      .ok (db.projectFiles.filter (fun f => f.projectId == pid))
    else .err .forbidden

/-- Modelled from the spec: ProjectFileUploadView is imported by music/urls.py
(route projects/<project_id>/upload/) but its definition is absent from the
source files. Per the spec, UploadFile creates a ProjectFile under the Project
if the Project is owned by the requesting user and fails with Forbidden
otherwise; the uploaded payload enters the blob store with the row. -/
def uploadFile (db : DB) (uid pid : Nat) (name fileRef : String) (newId now : Nat) :
    DB × Resp Nat :=
  match db.projects.find? (fun p => p.id == pid) with
  | none => (db, .err .notFound)
  | some p =>
    if p.userId == uid then
      ({ db with
          projectFiles := db.projectFiles ++
            [{ id := newId, projectId := pid, name := name, file := fileRef,
               created_at := now }],
          storage := db.storage ++ [fileRef] },
       .ok newId)
    else (db, .err .forbidden)

/-!
Concrete fixtures used by witnesses and counterexamples.
-/

def aliceU : UserRec :=
  { id := 1, username := "Alice", is_creator := false, is_listener := true,
    creator_since := none }

def bobU : UserRec :=
  { id := 2, username := "RockBob", is_creator := true, is_listener := true,
    creator_since := some 5 }

def songT : Track :=
  { id := 10, userId := 1, title := "Song1", genre := "rock",
    listens_count := 0, created_at := 3 }

def quietT : Track :=
  { id := 11, userId := 2, title := "Quiet", genre := "jazz",
    listens_count := 2, created_at := 7 }

def demoProject : Project :=
  { id := 1, userId := 7, title := "Untitled Project", bpm := 120,
    arrangement := "", created_at := 1, last_updated := 1 }

def demoFile : ProjectFile :=
  { id := 1, projectId := 1, name := "Recording",
    file := "project_stems/a.wav", created_at := 2 }

def demoDB : DB :=
  { users := [aliceU, bobU], tracks := [songT, quietT], likes := [(2, 10)],
    projects := [demoProject], projectFiles := [demoFile],
    storage := ["project_stems/a.wav"] }

/-!
Helper lemmas about the embedded operations.
-/

theorem perm_cons_erase_pair (a : Nat × Nat) (l : List (Nat × Nat)) (h : a ∈ l) :
    l.Perm (a :: l.erase a) := by
  induction l with
  | nil => cases h
  | cons b bs ih =>
    by_cases hba : b = a
    · subst hba
      rw [List.erase_cons_head]
    · rw [List.erase_cons_tail (by simp [hba])]
      have hm : a ∈ bs := by
        cases List.mem_cons.mp h with
        | inl hh => exact absurd hh.symm hba
        | inr hh => exact hh
      exact ((ih hm).cons b).trans (List.Perm.swap a b _)

theorem find?_of_exists_track (l : List Track) (tid : Nat)
    (h : ∃ t ∈ l, t.id = tid) :
    ∃ t0, l.find? (fun t => t.id == tid) = some t0 := by
  have hs : (l.find? (fun t => t.id == tid)).isSome := by
    rw [List.find?_isSome]
    obtain ⟨t, htl, hid⟩ := h
    exact ⟨t, htl, by simp [hid]⟩
  exact Option.isSome_iff_exists.mp hs

theorem likeToggle_eq_absent (db : DB) (uid tid : Nat)
    (hfind : db.tracks.find? (fun t => t.id == tid) = none) :
    likeToggle db uid tid = (db, .err .notFound) := by
  simp [likeToggle, hfind]

theorem likeToggle_eq_mem (db : DB) (uid tid : Nat) (t0 : Track)
    (hfind : db.tracks.find? (fun t => t.id == tid) = some t0)
    (hm : (uid, tid) ∈ db.likes) :
    likeToggle db uid tid =
      ({ db with likes := db.likes.erase (uid, tid) },
       .ok (false, likesCount { db with likes := db.likes.erase (uid, tid) } tid)) := by
  simp [likeToggle, hfind, hm]

theorem likeToggle_eq_not_mem (db : DB) (uid tid : Nat) (t0 : Track)
    (hfind : db.tracks.find? (fun t => t.id == tid) = some t0)
    (hm : (uid, tid) ∉ db.likes) :
    likeToggle db uid tid =
      ({ db with likes := db.likes ++ [(uid, tid)] },
       .ok (true, likesCount { db with likes := db.likes ++ [(uid, tid)] } tid)) := by
  simp [likeToggle, hfind, hm]

/-!
Claim theorems.
-/

/-- C1: for an authenticated user and an existing track, the like toggle
deletes the Like row and reports liked=false when the (user, track) Like row
exists, and otherwise creates that row and reports liked=true; in both cases
the reported likes_count is the number of Like rows for the track after the
mutation, and no other table changes. -/
theorem likeToggle_toggle_semantics (db : DB) (uid tid : Nat)
    (hnd : db.likes.Nodup) (ht : ∃ t ∈ db.tracks, t.id = tid) :
    ∃ db' liked cnt,
      likeToggle db uid tid = (db', Resp.ok (liked, cnt)) ∧
      db'.users = db.users ∧ db'.tracks = db.tracks ∧
      db'.projects = db.projects ∧ db'.projectFiles = db.projectFiles ∧
      db'.storage = db.storage ∧
      cnt = likesCount db' tid ∧
      ((uid, tid) ∈ db.likes →
        liked = false ∧ (uid, tid) ∉ db'.likes ∧
        ∀ p, p ∈ db'.likes ↔ p ≠ (uid, tid) ∧ p ∈ db.likes) ∧
      ((uid, tid) ∉ db.likes →
        liked = true ∧ (uid, tid) ∈ db'.likes ∧
        ∀ p, p ∈ db'.likes ↔ p = (uid, tid) ∨ p ∈ db.likes) := by
  obtain ⟨t0, hfind⟩ := find?_of_exists_track db.tracks tid ht
  by_cases hm : (uid, tid) ∈ db.likes
  · refine ⟨_, _, _, likeToggle_eq_mem db uid tid t0 hfind hm,
      rfl, rfl, rfl, rfl, rfl, rfl, ?_, ?_⟩
    · intro _
      refine ⟨rfl, hnd.not_mem_erase, fun p => hnd.mem_erase_iff⟩
    · intro hc; exact absurd hm hc
  · refine ⟨_, _, _, likeToggle_eq_not_mem db uid tid t0 hfind hm,
      rfl, rfl, rfl, rfl, rfl, rfl, ?_, ?_⟩
    · intro hc; exact absurd hc hm
    · intro _
      refine ⟨rfl, by simp, fun p => ?_⟩
      simp [List.mem_append, or_comm]

/-- C2: the Like table never holds two rows with the same (user, track) key:
if the table is duplicate-free, it stays duplicate-free after every modelled
operation of the system (all other operations leave the Like table alone). -/
theorem all_ops_preserve_like_uniqueness (db : DB)
    (uid tid pk newId now bpmv : Nat) (title genre arr name fileRef : String)
    (tp : TrackPatch) (pp : ProjectPatch)
    (hnd : db.likes.Nodup) :
    (likeToggle db uid tid).1.likes.Nodup ∧
    (recordListen db uid tid).1.likes.Nodup ∧
    (trackCreate db uid title genre newId now).likes.Nodup ∧
    (trackDetailUpdate db uid pk tp).1.likes.Nodup ∧
    (trackDetailDelete db uid pk).1.likes.Nodup ∧
    (projectCreate db uid title bpmv arr newId now).likes.Nodup ∧
    (projectDetailUpdate db uid pk pp now).1.likes.Nodup ∧
    (projectDetailDelete db uid pk).1.likes.Nodup ∧
    (uploadFile db uid pk name fileRef newId now).1.likes.Nodup := by
  refine ⟨?_, ?_, hnd, ?_, ?_, hnd, ?_, ?_, ?_⟩
  · cases hfind : db.tracks.find? (fun t => t.id == tid) with
    | none => rw [likeToggle_eq_absent db uid tid hfind]; exact hnd
    | some t0 =>
      by_cases hm : (uid, tid) ∈ db.likes
      · rw [likeToggle_eq_mem db uid tid t0 hfind hm]
        exact hnd.erase _
      · rw [likeToggle_eq_not_mem db uid tid t0 hfind hm]
        exact hnd.append (List.nodup_singleton _) (by simp [hm])
  · cases hfind : db.tracks.find? (fun t => t.id == tid) <;>
      simp [recordListen, hfind] <;> exact hnd
  · cases hfind : (ownTracks db uid).find? (fun t => t.id == pk) <;>
      simp [trackDetailUpdate, hfind] <;> exact hnd
  · cases hfind : (ownTracks db uid).find? (fun t => t.id == pk)
    · simp [trackDetailDelete, hfind]; exact hnd
    · simp [trackDetailDelete, hfind]; exact hnd.filter _
  · cases hfind : (ownProjects db uid).find? (fun p => p.id == pk) <;>
      simp [projectDetailUpdate, hfind] <;> exact hnd
  · cases hfind : (ownProjects db uid).find? (fun p => p.id == pk) <;>
      simp [projectDetailDelete, hfind] <;> exact hnd
  · cases hfind : db.projects.find? (fun p => p.id == pk) with
    | none => simp [uploadFile, hfind]; exact hnd
    | some p0 =>
      by_cases ho : p0.userId = uid
      · simp [uploadFile, hfind, ho]; exact hnd
      · simp [uploadFile, hfind, ho]; exact hnd

/-- C2 witness: the uniqueness invariant at a concrete state. -/
theorem all_ops_preserve_like_uniqueness_witness :
    (likeToggle demoDB 1 10).1.likes.Nodup := by
  exact (all_ops_preserve_like_uniqueness demoDB 1 10 1 1 1 120 "t" "g" "a" "n" "f"
    ⟨none, none⟩ ⟨none, none, none⟩ (by decide)).1

/-- C3: toggling the Like of one user on one existing track twice in
succession restores the Like table to the rows it held before the first
toggle (as a set of rows; the list is a permutation), and every other table
is restored exactly. -/
theorem likeToggle_twice_restores (db : DB) (uid tid : Nat)
    (hnd : db.likes.Nodup) (ht : ∃ t ∈ db.tracks, t.id = tid) :
    ((likeToggle (likeToggle db uid tid).1 uid tid).1.likes.Perm db.likes) ∧
    (likeToggle (likeToggle db uid tid).1 uid tid).1.users = db.users ∧
    (likeToggle (likeToggle db uid tid).1 uid tid).1.tracks = db.tracks ∧
    (likeToggle (likeToggle db uid tid).1 uid tid).1.projects = db.projects ∧
    (likeToggle (likeToggle db uid tid).1 uid tid).1.projectFiles = db.projectFiles ∧
    (likeToggle (likeToggle db uid tid).1 uid tid).1.storage = db.storage := by
  obtain ⟨t0, hfind⟩ := find?_of_exists_track db.tracks tid ht
  by_cases hm : (uid, tid) ∈ db.likes
  · have hm2 : (uid, tid) ∉ db.likes.erase (uid, tid) := hnd.not_mem_erase
    have key : (likeToggle (likeToggle db uid tid).1 uid tid).1 =
        { db with likes := db.likes.erase (uid, tid) ++ [(uid, tid)] } := by
      rw [likeToggle_eq_mem db uid tid t0 hfind hm]
      exact congrArg Prod.fst
        (likeToggle_eq_not_mem { db with likes := db.likes.erase (uid, tid) }
          uid tid t0 hfind hm2)
    rw [key]
    refine ⟨?_, rfl, rfl, rfl, rfl, rfl⟩
    exact (List.perm_append_singleton _ _).trans (perm_cons_erase_pair _ _ hm).symm
  · have hm2 : (uid, tid) ∈ db.likes ++ [(uid, tid)] := by simp
    have key : (likeToggle (likeToggle db uid tid).1 uid tid).1 =
        { db with likes := (db.likes ++ [(uid, tid)]).erase (uid, tid) } := by
      rw [likeToggle_eq_not_mem db uid tid t0 hfind hm]
      exact congrArg Prod.fst
        (likeToggle_eq_mem { db with likes := db.likes ++ [(uid, tid)] }
          uid tid t0 hfind hm2)
    rw [key]
    have herase : (db.likes ++ [(uid, tid)]).erase (uid, tid) = db.likes := by
      rw [List.erase_append_right _ hm]
      simp
    refine ⟨?_, rfl, rfl, rfl, rfl, rfl⟩
    rw [herase]

/-- C3 witness: double toggle at a concrete state. -/
theorem likeToggle_twice_restores_witness :
    ((likeToggle (likeToggle demoDB 1 11).1 1 11).1.likes.Perm demoDB.likes) := by
  exact (likeToggle_twice_restores demoDB 1 11 (by decide) ⟨quietT, by decide, rfl⟩).1

theorem find?_map_listen (l : List Track) (tid : Nat) (t0 : Track)
    (h : l.find? (fun t => t.id == tid) = some t0) :
    (l.map (fun u => if u.id == tid then
        { u with listens_count := u.listens_count + 1 } else u)).find?
      (fun t => t.id == tid) =
      some { t0 with listens_count := t0.listens_count + 1 } := by
  induction l with
  | nil => simp at h
  | cons a as ih =>
    by_cases ha : a.id = tid
    · have hpa : (fun t : Track => t.id == tid) a = true := by simp [ha]
      rw [@List.find?_cons_of_pos Track (fun t => t.id == tid) a as hpa] at h
      injection h with h
      subst h
      simp only [List.map_cons, if_pos hpa]
      exact @List.find?_cons_of_pos Track (fun t => t.id == tid) _ _ (by simp [ha])
    · have hpa : ¬ ((fun t : Track => t.id == tid) a = true) := by simp [ha]
      rw [@List.find?_cons_of_neg Track (fun t => t.id == tid) a as hpa] at h
      simp only [List.map_cons, if_neg hpa]
      rw [@List.find?_cons_of_neg Track (fun t => t.id == tid) _ _ hpa]
      exact ih h

theorem recordListen_eq (db : DB) (uid tid : Nat) (t0 : Track)
    (h : db.tracks.find? (fun t => t.id == tid) = some t0) :
    recordListen db uid tid =
      ({ db with tracks := db.tracks.map (fun u =>
          if u.id == tid then { u with listens_count := u.listens_count + 1 } else u) },
       .ok (t0.listens_count + 1)) := by
  simp [recordListen, h]

theorem recordListen_step (db : DB) (uid tid : Nat) (t0 : Track)
    (h : db.tracks.find? (fun t => t.id == tid) = some t0) :
    listensOf (recordListen db uid tid).1 tid = some (t0.listens_count + 1) ∧
    (recordListen db uid tid).2 = .ok (t0.listens_count + 1) ∧
    (recordListen db uid tid).1.users = db.users ∧
    (recordListen db uid tid).1.likes = db.likes ∧
    (recordListen db uid tid).1.projects = db.projects ∧
    (recordListen db uid tid).1.projectFiles = db.projectFiles ∧
    (recordListen db uid tid).1.storage = db.storage := by
  rw [recordListen_eq db uid tid t0 h]
  refine ⟨?_, rfl, rfl, rfl, rfl, rfl, rfl⟩
  show Option.map (fun t => t.listens_count)
      (List.find? (fun t => t.id == tid) (db.tracks.map (fun u =>
        if u.id == tid then { u with listens_count := u.listens_count + 1 } else u))) =
    some (t0.listens_count + 1)
  rw [find?_map_listen db.tracks tid t0 h]
  rfl

theorem listenSeq_adds_length (tid : Nat) (us : List Nat) (db : DB) (n : Nat)
    (h : listensOf db tid = some n) :
    listensOf (listenSeq db tid us) tid = some (n + us.length) := by
  induction us generalizing db n with
  | nil => simpa [listenSeq] using h
  | cons u us ih =>
    obtain ⟨t0, hf, hn⟩ : ∃ t0, db.tracks.find? (fun t => t.id == tid) = some t0 ∧
        t0.listens_count = n := by
      unfold listensOf at h
      cases hf : db.tracks.find? (fun t => t.id == tid) with
      | none => rw [hf] at h; simp at h
      | some t0 => rw [hf] at h; exact ⟨t0, rfl, by simpa using h⟩
    have hstep := (recordListen_step db u tid t0 hf).1
    rw [listenSeq]
    have := ih ((recordListen db u tid).1) (t0.listens_count + 1) hstep
    rw [this, hn]
    congr 1
    simp [Nat.add_assoc, Nat.add_comm 1 us.length]

/-- C4: calling the listen endpoint N times on an existing track, by any
sequence of authenticated callers, raises that track's listens_count by
exactly N; when no track has the given id the call answers NotFound and the
whole state is unchanged. -/
theorem recordListen_adds_exactly_n (db : DB) (tid n uid : Nat) (us : List Nat) :
    (listensOf db tid = some n →
      listensOf (listenSeq db tid us) tid = some (n + us.length)) ∧
    ((∀ t ∈ db.tracks, t.id ≠ tid) →
      recordListen db uid tid = (db, .err .notFound)) := by
  constructor
  · exact listenSeq_adds_length tid us db n
  · intro habs
    have hf : db.tracks.find? (fun t => t.id == tid) = none := by
      rw [List.find?_eq_none]
      intro t htl
      simp [habs t htl]
    simp [recordListen, hf]

/-- C4 witness: three listens by two different callers on a concrete track,
and the NotFound case on an absent id. -/
theorem recordListen_adds_exactly_n_witness :
    listensOf (listenSeq demoDB 11 [1, 2, 1]) 11 = some (2 + 3) ∧
    recordListen demoDB 1 99 = (demoDB, .err .notFound) := by
  constructor
  · exact (recordListen_adds_exactly_n demoDB 11 2 1 [1, 2, 1]).1 (by decide)
  · exact (recordListen_adds_exactly_n demoDB 99 0 1 []).2 (by decide)

theorem startsWithL_iff (n : List Char) : ∀ h : List Char,
    startsWithL h n = true ↔ ∃ rest, h = n ++ rest := by
  induction n with
  | nil =>
    intro h
    simp [startsWithL]
  | cons d ds ih =>
    intro h
    cases h with
    | nil =>
      simp [startsWithL]
    | cons c cs =>
      rw [startsWithL]
      simp only [Bool.and_eq_true, beq_iff_eq, ih cs, List.cons_append,
        List.cons.injEq]
      constructor
      · rintro ⟨hc, rest, hr⟩
        exact ⟨rest, hc, hr⟩
      · rintro ⟨rest, hc, hr⟩
        exact ⟨hc, rest, hr⟩

theorem containsSubL_iff (n : List Char) : ∀ h : List Char,
    containsSubL n h = true ↔ ∃ pre post, h = pre ++ (n ++ post) := by
  intro h
  induction h with
  | nil =>
    rw [containsSubL, startsWithL_iff]
    constructor
    · rintro ⟨rest, hr⟩
      exact ⟨[], rest, hr⟩
    · rintro ⟨pre, post, hp⟩
      cases pre with
      | nil => exact ⟨post, hp⟩
      | cons x xs => simp at hp
  | cons c cs ih =>
    rw [containsSubL]
    simp only [Bool.or_eq_true, startsWithL_iff, ih]
    constructor
    · rintro (⟨rest, hr⟩ | ⟨pre, post, hp⟩)
      · exact ⟨[], rest, by simpa using hr⟩
      · exact ⟨c :: pre, post, by simp [hp]⟩
    · rintro ⟨pre, post, hp⟩
      cases pre with
      | nil =>
        left
        exact ⟨post, by simpa using hp⟩
      | cons x xs =>
        right
        rw [List.cons_append, List.cons.injEq] at hp
        exact ⟨xs, post, hp.2⟩

/-- Spec-side statement of case-insensitive containment: the lowercased
needle occurs contiguously inside the lowercased haystack. -/
def containsCI (hay q : String) : Prop :=
  ∃ pre post, hay.toLower.data = pre ++ (q.toLower.data ++ post)

theorem icontains_iff (hay q : String) :
    icontains hay q = true ↔ containsCI hay q :=
  containsSubL_iff q.toLower.data hay.toLower.data

theorem trackMatches_iff (db : DB) (q : String) (t : Track) :
    trackMatches db q t = true ↔
      (containsCI t.title q ∨ containsCI t.genre q ∨
        containsCI (ownerUsername db t) q) := by
  unfold trackMatches
  simp only [Bool.or_eq_true, icontains_iff]
  exact or_assoc

/-- C5: the search endpoint answers the empty list on an empty query, and on
a non-empty query answers exactly the tracks whose title, genre or owner
username case-insensitively contains the query (a permutation of the filtered
table, no more and no less), sorted newest-first by creation time. -/
theorem search_empty_and_filter_sorted (db : DB) (q : String) :
    search db "" = [] ∧
    (q ≠ "" →
      (search db q).Perm (db.tracks.filter (trackMatches db q)) ∧
      (∀ t, t ∈ search db q ↔ t ∈ db.tracks ∧
        (containsCI t.title q ∨ containsCI t.genre q ∨
          containsCI (ownerUsername db t) q)) ∧
      List.Sorted newerEq (search db q)) := by
  refine ⟨by simp [search], fun hq => ?_⟩
  have hs : search db q = List.insertionSort newerEq
      (db.tracks.filter (trackMatches db q)) := by
    simp [search, hq]
  refine ⟨?_, ?_, ?_⟩
  · rw [hs]
    exact List.perm_insertionSort _ _
  · intro t
    rw [hs, (List.perm_insertionSort _ _).mem_iff, List.mem_filter,
      trackMatches_iff]
  · rw [hs]
    exact List.sorted_insertionSort _ _

/-- C5 witness: the concrete catalog, searched for a string matching one
genre and one owner username. -/
theorem search_empty_and_filter_sorted_witness :
    (search demoDB "ROCK").Perm
      (demoDB.tracks.filter (trackMatches demoDB "ROCK")) := by
  exact ((search_empty_and_filter_sorted demoDB "ROCK").2 (by decide)).1

def creatorOnPatch : ProfilePatch := { isCreatorField := some true, isListenerField := none }

def creatorOffPatch : ProfilePatch := { isCreatorField := some false, isListenerField := none }

/-- C6 counterexample: starting from a non-creator, an update to creator
stamps creator_since at time 4; after a later update back to non-creator, a
further update to creator re-stamps it at time 9, so creator_since is not
set exactly once and a subsequent update with is_creator=true does change
it. -/
theorem updateProfile_restamps_counterexample :
    (updateProfile aliceU creatorOnPatch 4).creator_since = some 4 ∧
    (updateProfile (updateProfile (updateProfile aliceU creatorOnPatch 4)
        creatorOffPatch 6) creatorOnPatch 9).creator_since = some 9 ∧
    (updateProfile (updateProfile (updateProfile aliceU creatorOnPatch 4)
        creatorOffPatch 6) creatorOnPatch 9).creator_since ≠
      (updateProfile aliceU creatorOnPatch 4).creator_since := by
  decide

/-- C6 amended: an update stamps creator_since with the current time exactly
when it passes a truthy is_creator while the stored is_creator is false, and
leaves it unchanged in every other case (so it is never cleared, but it can
be stamped again after is_creator has gone back to false); is_creator itself
follows the submitted value. -/
theorem updateProfile_creator_since_amended (u : UserRec) (d : ProfilePatch)
    (now : Nat) :
    (updateProfile u d now).creator_since =
      (if d.isCreatorField.getD false && !u.is_creator then some now
       else u.creator_since) ∧
    (updateProfile u d now).is_creator = d.isCreatorField.getD u.is_creator := by
  unfold updateProfile
  by_cases hc : (d.isCreatorField.getD false && !u.is_creator) = true
  · simp [hc]
  · simp [hc]

theorem find?_own_tracks_none (db : DB) (uid pk : Nat)
    (hT : ∀ t ∈ db.tracks, t.id = pk → t.userId ≠ uid) :
    (ownTracks db uid).find? (fun t => t.id == pk) = none := by
  rw [List.find?_eq_none]
  intro t htl
  rw [ownTracks, List.mem_filter] at htl
  intro hpk
  rw [beq_iff_eq] at hpk
  have := hT t htl.1 hpk
  have h2 := htl.2
  rw [beq_iff_eq] at h2
  exact this h2

theorem find?_own_projects_none (db : DB) (uid pk : Nat)
    (hP : ∀ p ∈ db.projects, p.id = pk → p.userId ≠ uid) :
    (ownProjects db uid).find? (fun p => p.id == pk) = none := by
  rw [List.find?_eq_none]
  intro p hpl
  rw [ownProjects, List.mem_filter] at hpl
  intro hpk
  rw [beq_iff_eq] at hpk
  have := hP p hpl.1 hpk
  have h2 := hpl.2
  rw [beq_iff_eq] at h2
  exact this h2

/-- C7: for a requesting user who does not own the resource with the given
id (whether a row with that id exists under another owner, or no row with
that id exists at all), every GET, PUT and DELETE on the track and project
detail endpoints yields one and the same outcome: NotFound with the state
untouched. The outcome is a constant, so a non-owner cannot distinguish a
foreign resource from an absent one. -/
theorem owned_detail_uniform_failure (db : DB) (uid pk : Nat)
    (tp : TrackPatch) (pp : ProjectPatch) (now : Nat)
    (hT : ∀ t ∈ db.tracks, t.id = pk → t.userId ≠ uid)
    (hP : ∀ p ∈ db.projects, p.id = pk → p.userId ≠ uid) :
    trackDetailGet db uid pk = .err .notFound ∧
    trackDetailUpdate db uid pk tp = (db, .err .notFound) ∧
    trackDetailDelete db uid pk = (db, .err .notFound) ∧
    projectDetailGet db uid pk = .err .notFound ∧
    projectDetailUpdate db uid pk pp now = (db, .err .notFound) ∧
    projectDetailDelete db uid pk = (db, .err .notFound) := by
  have hfT := find?_own_tracks_none db uid pk hT
  have hfP := find?_own_projects_none db uid pk hP
  refine ⟨?_, ?_, ?_, ?_, ?_, ?_⟩
  · simp [trackDetailGet, hfT]
  · simp [trackDetailUpdate, hfT]
  · simp [trackDetailDelete, hfT]
  · simp [projectDetailGet, hfP]
  · simp [projectDetailUpdate, hfP]
  · simp [projectDetailDelete, hfP]

/-- C7 witness: user 3 owns nothing; a request for the existing foreign
track 10 (and the foreign project 1) fails with the constant NotFound. -/
theorem owned_detail_uniform_failure_witness :
    trackDetailGet demoDB 3 10 = .err .notFound ∧
    projectDetailDelete demoDB 3 1 = (demoDB, .err .notFound) := by
  have h := owned_detail_uniform_failure demoDB 3 10 ⟨none, none⟩
    ⟨none, none, none⟩ 0 (by decide) (by decide)
  have h2 := owned_detail_uniform_failure demoDB 3 1 ⟨none, none⟩
    ⟨none, none, none⟩ 0 (by decide) (by decide)
  exact ⟨h.1, h2.2.2.2.2.2⟩

/-- C8 counterexample: owner 7 deletes project 1; its ProjectFile row (which
referenced payload project_stems/a.wav) is gone, but the payload itself is
still in the blob store, because a Django FileField does not delete its
stored file when the row is deleted and the source registers no cleanup. So
the delete does not remove the underlying stored file payloads. -/
theorem projectDelete_keeps_payload_counterexample :
    demoFile ∈ demoDB.projectFiles ∧ demoFile.projectId = 1 ∧
    demoFile.file = "project_stems/a.wav" ∧
    (projectDetailDelete demoDB 7 1).2 = .ok () ∧
    (projectDetailDelete demoDB 7 1).1.projectFiles = [] ∧
    "project_stems/a.wav" ∈ (projectDetailDelete demoDB 7 1).1.storage := by
  decide

/-- C8 amended: deleting a project an owner holds removes every ProjectFile
row of that project (no orphaned rows remain) and keeps every ProjectFile
row of other projects, but the underlying stored file payloads are not
deleted: the blob store is unchanged. -/
theorem projectDelete_cascades_rows (db : DB) (uid pk : Nat)
    (hp : ∃ p ∈ db.projects, p.id = pk ∧ p.userId = uid) :
    (projectDetailDelete db uid pk).2 = .ok () ∧
    (∀ f ∈ (projectDetailDelete db uid pk).1.projectFiles, f.projectId ≠ pk) ∧
    (∀ f ∈ db.projectFiles, f.projectId ≠ pk →
      f ∈ (projectDetailDelete db uid pk).1.projectFiles) ∧
    (∀ p ∈ (projectDetailDelete db uid pk).1.projects, p.id ≠ pk) ∧
    (projectDetailDelete db uid pk).1.storage = db.storage := by
  obtain ⟨p0, hpmem, hpid, hpuid⟩ := hp
  obtain ⟨p1, hfind⟩ : ∃ p1, (ownProjects db uid).find? (fun p => p.id == pk) = some p1 := by
    have hs : ((ownProjects db uid).find? (fun p => p.id == pk)).isSome := by
      rw [List.find?_isSome]
      refine ⟨p0, ?_, by simp [hpid]⟩
      rw [ownProjects, List.mem_filter]
      exact ⟨hpmem, by simp [hpuid]⟩
    exact Option.isSome_iff_exists.mp hs
  refine ⟨?_, ?_, ?_, ?_, ?_⟩
  · simp [projectDetailDelete, hfind]
  · intro f hf
    simp only [projectDetailDelete, hfind] at hf
    rw [List.mem_filter] at hf
    simpa using hf.2
  · intro f hf hne
    simp only [projectDetailDelete, hfind]
    rw [List.mem_filter]
    exact ⟨hf, by simpa using hne⟩
  · intro p hpm
    simp only [projectDetailDelete, hfind] at hpm
    rw [List.mem_filter] at hpm
    simpa using hpm.2
  · simp [projectDetailDelete, hfind]

/-- C8 amended witness: the cascade on the concrete state. -/
theorem projectDelete_cascades_rows_witness :
    (projectDetailDelete demoDB 7 1).2 = .ok () ∧
    (projectDetailDelete demoDB 7 1).1.storage = demoDB.storage := by
  have h := projectDelete_cascades_rows demoDB 7 1
    ⟨demoProject, by decide, rfl, rfl⟩
  exact ⟨h.1, h.2.2.2.2⟩

theorem find?_eq_of_mem_unique_proj (l : List Project) (pid : Nat) (p0 : Project)
    (hnd : (l.map (fun p => p.id)).Nodup) (hmem : p0 ∈ l) (hid : p0.id = pid) :
    l.find? (fun p => p.id == pid) = some p0 := by
  induction l with
  | nil => cases hmem
  | cons a as ih =>
    rw [List.map_cons, List.nodup_cons] at hnd
    cases List.mem_cons.mp hmem with
    | inl heq =>
      subst heq
      exact @List.find?_cons_of_pos Project (fun p => p.id == pid) p0 as (by simp [hid])
    | inr hmem2 =>
      have hane : a.id ≠ pid := by
        intro haid
        exact hnd.1 (by rw [haid, ← hid]; exact List.mem_map_of_mem _ hmem2)
      rw [@List.find?_cons_of_neg Project (fun p => p.id == pid) a as (by simp [hane])]
      exact ih hnd.2 hmem2

/-- C9: the modelled file endpoints check ownership through the project: a
successful listing implies the project exists and belongs to the requester
and returns exactly the ProjectFile rows of that project; a successful
upload implies the same ownership and appends the new row and its payload;
and when the project exists but belongs to someone else, both operations
fail with Forbidden and the upload changes nothing. Project ids are assumed
unique, as the database primary key guarantees. -/
theorem listFiles_uploadFile_ownership (db : DB) (uid pid : Nat)
    (name fileRef : String) (newId now : Nat)
    (hnd : (db.projects.map (fun p => p.id)).Nodup) :
    (∀ fs, listFiles db uid pid = .ok fs →
      (∃ p ∈ db.projects, p.id = pid ∧ p.userId = uid) ∧
      ∀ f, f ∈ fs ↔ f ∈ db.projectFiles ∧ f.projectId = pid) ∧
    (∀ db' fid, uploadFile db uid pid name fileRef newId now = (db', .ok fid) →
      (∃ p ∈ db.projects, p.id = pid ∧ p.userId = uid) ∧
      db'.projectFiles = db.projectFiles ++
        [{ id := newId, projectId := pid, name := name, file := fileRef,
           created_at := now }] ∧
      db'.storage = db.storage ++ [fileRef]) ∧
    (∀ p0 ∈ db.projects, p0.id = pid → p0.userId ≠ uid →
      listFiles db uid pid = .err .forbidden ∧
      uploadFile db uid pid name fileRef newId now = (db, .err .forbidden)) := by
  refine ⟨?_, ?_, ?_⟩
  · intro fs hok
    cases hfind : db.projects.find? (fun p => p.id == pid) with
    | none => simp [listFiles, hfind] at hok
    | some p1 =>
      simp only [listFiles, hfind] at hok
      by_cases ho : (p1.userId == uid) = true
      · rw [if_pos ho] at hok
        injection hok with hok
        subst hok
        have hid : p1.id = pid := by
          have := List.find?_some hfind
          simpa using this
        refine ⟨⟨p1, List.mem_of_find?_eq_some hfind, hid, by simpa using ho⟩, ?_⟩
        intro f
        rw [List.mem_filter]
        simp
      · rw [if_neg ho] at hok
        cases hok
  · intro db' fid hok
    cases hfind : db.projects.find? (fun p => p.id == pid) with
    | none =>
      simp only [uploadFile, hfind] at hok
      have h2 := congrArg Prod.snd hok
      simp at h2
    | some p1 =>
      simp only [uploadFile, hfind] at hok
      by_cases ho : (p1.userId == uid) = true
      · rw [if_pos ho] at hok
        have hid : p1.id = pid := by
          have := List.find?_some hfind
          simpa using this
        have hfst : ({ db with
            projectFiles := db.projectFiles ++
              [{ id := newId, projectId := pid, name := name, file := fileRef,
                 created_at := now }],
            storage := db.storage ++ [fileRef] } : DB) = db' :=
          congrArg Prod.fst hok
        refine ⟨⟨p1, List.mem_of_find?_eq_some hfind, hid, by simpa using ho⟩, ?_, ?_⟩
        · rw [← hfst]
        · rw [← hfst]
      · rw [if_neg ho] at hok
        have h2 := congrArg Prod.snd hok
        simp at h2
  · intro p0 hpmem hpid hpuid
    have hfind := find?_eq_of_mem_unique_proj db.projects pid p0 hnd hpmem hpid
    have ho : ¬ ((p0.userId == uid) = true) := by simpa using hpuid
    constructor
    · simp only [listFiles, hfind]
      rw [if_neg ho]
    · simp only [uploadFile, hfind]
      rw [if_neg ho]

/-- C9 witness: user 7 owns project 1 and can list its files; user 3 cannot
upload to it and is refused with Forbidden. -/
theorem listFiles_uploadFile_ownership_witness :
    listFiles demoDB 7 1 = .ok [demoFile] ∧
    uploadFile demoDB 3 1 "n" "f" 2 9 = (demoDB, .err .forbidden) := by
  have h := listFiles_uploadFile_ownership demoDB 3 1 "n" "f" 2 9 (by decide)
  refine ⟨by decide, (h.2.2 demoProject (by decide) rfl (by decide)).2⟩

/-- C10: the like toggle and the listen endpoint apply no ownership filter:
for every authenticated caller, owner or not, they succeed whenever a track
with the given id exists, and fail (only) with NotFound, leaving the state
unchanged, when none does. -/
theorem likeToggle_recordListen_ignore_ownership (db : DB) (uid tid : Nat) :
    ((∃ t ∈ db.tracks, t.id = tid) →
      (∃ db' liked cnt, likeToggle db uid tid = (db', .ok (liked, cnt))) ∧
      (∃ db' n, recordListen db uid tid = (db', .ok n))) ∧
    ((∀ t ∈ db.tracks, t.id ≠ tid) →
      likeToggle db uid tid = (db, .err .notFound) ∧
      recordListen db uid tid = (db, .err .notFound)) := by
  constructor
  · intro ht
    obtain ⟨t0, hfind⟩ := find?_of_exists_track db.tracks tid ht
    constructor
    · by_cases hm : (uid, tid) ∈ db.likes
      · exact ⟨_, _, _, likeToggle_eq_mem db uid tid t0 hfind hm⟩
      · exact ⟨_, _, _, likeToggle_eq_not_mem db uid tid t0 hfind hm⟩
    · exact ⟨_, _, recordListen_eq db uid tid t0 hfind⟩
  · intro habs
    have hf : db.tracks.find? (fun t => t.id == tid) = none := by
      rw [List.find?_eq_none]
      intro t htl
      simp [habs t htl]
    exact ⟨likeToggle_eq_absent db uid tid hf, by simp [recordListen, hf]⟩

/-- C10 witness: user 1 does not own track 11 but can like it and record a
listen; track 99 does not exist and both endpoints answer NotFound. -/
theorem likeToggle_recordListen_ignore_ownership_witness :
    ((∃ db' liked cnt, likeToggle demoDB 1 11 = (db', .ok (liked, cnt))) ∧
      (∃ db' n, recordListen demoDB 1 11 = (db', .ok n))) ∧
    (likeToggle demoDB 1 99 = (demoDB, .err .notFound) ∧
      recordListen demoDB 1 99 = (demoDB, .err .notFound)) := by
  constructor
  · exact (likeToggle_recordListen_ignore_ownership demoDB 1 11).1
      ⟨quietT, by decide, rfl⟩
  · exact (likeToggle_recordListen_ignore_ownership demoDB 1 99).2 (by decide)

/-- C1 witness: concrete run of the toggle theorem. -/
theorem likeToggle_toggle_semantics_witness :
    ∃ db' liked cnt, likeToggle demoDB 1 11 = (db', Resp.ok (liked, cnt)) := by
  obtain ⟨db', liked, cnt, h, -⟩ :=
    likeToggle_toggle_semantics demoDB 1 11
      (by decide) ⟨quietT, by decide, rfl⟩
  exact ⟨db', liked, cnt, h⟩
